import Mathlib

/-!
Verification of the pos33 cryptographic sortition engine
(`plugin/consensus/pos33/sortition.go`) against its specification.

The Go source is shallowly embedded below.  External collaborators
(SHA-256, the secp256k1 VRF, protobuf encoding, address derivation, the
ticket ledger and the difficulty oracle) are modelled as fields of the
`Crypto` and `Node` structures: every theorem is proved for an arbitrary
instantiation of those fields, so nothing about their behaviour is
assumed beyond what a hypothesis of a theorem states explicitly.

Machine integers: Go `int`/`int64` are modelled as `Int` (no overflow in
any reachable range), Go `int32` narrowing casts are modelled by
`wrap32`.  Bytes are `Fin 256`.  Go `float64`/`big.Float` values are
modelled as exact rationals, with `big.Float` rounding made explicit by
`floatRound` (round to nearest, ties to even, at a given precision in
significant bits), matching the documented semantics of `math/big`.
-/

set_option maxRecDepth 4000

abbrev Byte := Fin 256

/-- One lowercase hexadecimal digit, as produced by Go's `%x` verb. -/
def hexDigit (n : Nat) : Char :=
  if n < 10 then Char.ofNat (48 + n) else Char.ofNat (87 + n)

/-- Go `fmt.Sprintf("%x", b)` for a byte slice: each byte becomes exactly
two lowercase hexadecimal digits, most significant digit first. -/
def hexOfBytes (l : List Byte) : String :=
  String.mk (l.foldr (fun b cs => hexDigit (b.val / 16) :: hexDigit (b.val % 16) :: cs) [])

/-- The UTF-8 bytes of a string.  Every character the sortition code ever
formats is ASCII (`0`-`9`, `a`-`f`, `+`, `-`), for which UTF-8 is the
identity on code points, so taking the code point modulo 256 is exact on
all strings this development applies it to. -/
def asciiBytes (s : String) : List Byte :=
  s.data.map (fun c => (⟨c.toNat % 256, Nat.mod_lt _ (by decide)⟩ : Byte))

/-- Go's `int32(x)` narrowing conversion on a 64-bit value. -/
def wrap32 (x : Int) : Int :=
  (x + 2 ^ 31) % 2 ^ 32 - 2 ^ 31

/-! ### The `math/big` float model

`sortition.go` compares `new(big.Float).Quo(z, fmax)` with
`big.NewFloat(diff)` where `z = new(big.Float).SetInt(y)` and
`fmax = big.NewFloat(0).SetInt(max)`, `max = 1 << 256`:

* `big.NewFloat(0).SetInt(max)` keeps `NewFloat`'s precision 53 and
  rounds `2^256` to 53 significant bits - exact, because `2^256` is a
  power of two; so `fmax` holds exactly `2^256`.
* `new(big.Float).SetInt(y)` sets the precision to `max(y.BitLen(), 64)`
  and stores `y` exactly.
* `new(big.Float).Quo(z, fmax)` sets the result precision to the larger
  of the operands' precisions, i.e. `max(y.BitLen(), 64)`, and rounds
  the exact quotient to that many significant bits, to nearest, ties to
  even.
* `Cmp` compares the exact values held by the two floats.

`floatRound p q` below is that rounding: the nearest rational of the
form `m * 2^k` with `|m| < 2^p`, ties to even mantissa. -/

/-- Floor of the base-2 logarithm by repeated halving; `f` is fuel
(any `f ≥ n` gives the exact value, see `log2Fuel_spec`). -/
def log2Fuel : Nat → Nat → Nat
  | 0, _ => 0
  | f + 1, n => if n ≤ 1 then 0 else log2Fuel f (n / 2) + 1

/-- Ceiling of the base-2 logarithm by repeated ceiling-halving. -/
def clog2Fuel : Nat → Nat → Nat
  | 0, _ => 0
  | f + 1, n => if n ≤ 1 then 0 else clog2Fuel f ((n + 1) / 2) + 1

/-- Go `(*big.Int).BitLen` on a non-negative integer: `0` for `0`, and
`⌊log₂ n⌋ + 1` otherwise. -/
def bitlen (n : Nat) : Nat :=
  if n = 0 then 0 else log2Fuel n n + 1

/-- `⌊log₂ q⌋` of a positive rational (the binary exponent `e` with
`2^e ≤ q < 2^(e+1)`, see `ilog2_bracket`). -/
def ilog2 (q : ℚ) : ℤ :=
  if 1 ≤ q then (log2Fuel ⌊q⌋.toNat ⌊q⌋.toNat : ℤ)
  else -(clog2Fuel ⌈q⁻¹⌉.toNat ⌈q⁻¹⌉.toNat : ℤ)

/-- Round the quotient `a / b` (with `b ≠ 0`) to the nearest natural
number, ties to the even one: the integer-grid case of IEEE/`math/big`
round-to-nearest-even, phrased on numerator and denominator so that it
evaluates by machine integer arithmetic. -/
def rneNat (a b : Nat) : Nat :=
  if 2 * (a % b) < b then a / b
  else if b < 2 * (a % b) then a / b + 1
  else if (a / b) % 2 = 0 then a / b else a / b + 1

/-- Round a rational to `p` significant binary digits, to nearest, ties
to even: the rounding `math/big` performs on a `big.Float` of precision
`p`.  A nonzero `q` with `2^e ≤ |q| < 2^(e+1)` (`e = ilog2 |q|`) is
rounded on the grid of multiples of `2^(e+1-p)`; writing `k = e+1-p` and
`|q| = n/d`, the grid coordinate of `|q|` is `n·2^(-k)/d` (for `k ≤ 0`)
or `n/(d·2^k)` (for `k > 0`), which `rneNat` rounds to the nearest even;
the result is `±m·2^k`.  (Exactly one of `k.toNat`, `(-k).toNat` is
nonzero, so the final multiply/divide pair applies `2^k`.) -/
def floatRound (p : Nat) (q : ℚ) : ℚ :=
  if q = 0 then 0
  else
    (if q < 0 then (-1 : ℚ) else 1) *
      ((rneNat (q.num.natAbs * 2 ^ (-(ilog2 |q| + 1 - (p : ℤ))).toNat) (q.den * 2 ^ (ilog2 |q| + 1 - (p : ℤ)).toNat) : ℚ) *
        ((2 ^ (ilog2 |q| + 1 - (p : ℤ)).toNat : Nat) : ℚ) /
        ((2 ^ (-(ilog2 |q| + 1 - (p : ℤ))).toNat : Nat) : ℚ))

/-- The precision `big.Float` gives the quotient in `sortF`/`verifySort`:
`new(big.Float).SetInt(y)` has precision `max(y.BitLen(), 64)`, `fmax`
has precision 53, and `Quo` takes the larger of the two. -/
def quoPrec (y : Nat) : Nat := max (bitlen y) 64

/-- The value of a byte string read big-endian (first byte most
significant). -/
def bytesBE (l : List Byte) : Nat :=
  l.foldl (fun acc b => acc * 256 + b.val) 0

/-- chain33's `difficulty.HashToBig` (external dependency
`github.com/33cn/chain33/common/difficulty`, not part of this
repository): it reverses the byte slice **in place** and then applies
`big.Int.SetBytes` (big-endian) to the reversed slice, i.e. it reads the
hash little-endian.  The in-place mutation is why `sortition.go` copies
the hash into `tmpHash` before each call (lines 44-48 and 192-196); the
function is chain33's adaptation of btcd's `blockchain.HashToBig`, which
reverses for the same reason. -/
def hashToBig (hash : List Byte) : Nat :=
  bytesBE hash.reverse

/-- The spec's reading of the threshold operand ("`ticketHashBytes` as an
unsigned big-endian integer `y` over the hash's full bit width"): the
hash bytes taken big-endian, **without** the byte reversal that
`difficulty.HashToBig` performs. -/
def specBigEndianVal (hash : List Byte) : Nat :=
  bytesBE hash

/-- The package-level constant `fmax` (sortition.go lines 20-22):
`big.NewFloat(0).SetInt(big1.Lsh(big1, 256))`, the exact value `2^256`
(a power of two, so the 53-bit rounding of `SetInt` is exact). -/
def fmax : ℚ := ((2 ^ 256 : Nat) : ℚ)

/-- The threshold comparison of `sortition.go` lines 48-51 and 196-198
(the two sites are textually identical):
`new(big.Float).Quo(z, fmax).Cmp(big.NewFloat(diff)) > 0` - `true` means
the ticket *loses* (the draw is above the difficulty target).  `diff` is
the exact rational value of the Go `float64` argument. -/
def thresholdLose (y : Nat) (diff : ℚ) : Bool :=
  decide (diff < floatRound (quoPrec y) ((y : ℚ) / fmax))

/-! ### Data model (`pt` protobuf types, pointer fields as `Option`) -/

structure VrfInput where
  seed : List Byte
  height : Int
  round : Int
  ty : Int
deriving DecidableEq

structure HashProof where
  input : Option VrfInput
  vrfHash : List Byte
  vrfProof : List Byte
  pubkey : List Byte
deriving DecidableEq

structure SortHash where
  hash : List Byte
  index : Int
  num : Int
deriving DecidableEq

structure Pos33SortMsg where
  sortHash : Option SortHash
  proof : Option HashProof
deriving DecidableEq

/-- The distinct rejection reasons of `verifySort`, one constructor per
`return` site: `nilMsg` ("sort msg is nil"), `indexErr` ("sort index %d >
%d your count, height %d"), `heightErr` ("height NOT match: %d!=%d"),
`seedErr`, `tyErr`, `vrfErr` (`pt.ErrVrfVerify`), `hashErr` ("sort hash
error"), `diffErr` (`errDiff`). -/
inductive VerifyError where
  | nilMsg : VerifyError
  | indexErr (index count height : Int) : VerifyError
  | heightErr (msgHeight height : Int) : VerifyError
  | seedErr : VerifyError
  | tyErr : VerifyError
  | vrfErr : VerifyError
  | hashErr : VerifyError
  | diffErr : VerifyError
deriving DecidableEq

/-- The cryptographic externals used by `sortition.go`:
`crypto.Sha256`, the secp256k1 VRF (`Evaluate` on the producer side,
`ParsePubKey`/`ProofToHash` on the verifier side), `priv.PubKey().Bytes()`,
the canonical protobuf encoding `types.Encode`, and
`address.PubKeyToAddr(ethID, ·)`.  All are deterministic pure functions;
nothing about them is assumed here beyond determinism. -/
structure Crypto where
  sha256 : List Byte → List Byte
  evaluate : List Byte → List Byte → List Byte × List Byte
  parsePubKey : List Byte → Bool
  proofToHash : List Byte → List Byte → List Byte → Option (List Byte)
  pubkeyOf : List Byte → List Byte
  encode : VrfInput → List Byte
  pubKeyToAddr : List Byte → String

/-- The node-local externals of `sortition.go`: the node's own address,
the private-key provider (`n.getPriv`, `none` = not a staking
participant), the ticket-ledger query (`n.queryTicketCount`) and the
difficulty oracle (`n.getDiff`, a `float64` modelled as its exact
rational value). -/
structure Node where
  myAddr : String
  getPriv : Option (List Byte)
  queryTicketCount : String → Int → Int
  getDiff : Int → Int → ℚ

/-- `hash2` (sortition.go lines 206-208): SHA-256 applied twice. -/
def hash2 (C : Crypto) (data : List Byte) : List Byte :=
  C.sha256 (C.sha256 data)

/-- The string `fmt.Sprintf("%x+%d+%d", vrfHash, index, num)` built at
sortition.go line 41 (producer) and line 186 (verifier) - the two sites
are textually identical. -/
def sortData (vrfHash : List Byte) (index num : Int) : String :=
  hexOfBytes vrfHash ++ "+" ++ toString index ++ "+" ++ toString num

/-- `sortF` (sortition.go lines 40-60): one ticket's lottery draw.
Returns `none` for a losing draw; a winning draw is wrapped in a
`Pos33SortMsg` whose `Index` is `int64(index)` and whose `Num` is
`int32(num)`. -/
def sortF (C : Crypto) (vrfHash : List Byte) (index num : Int) (diff : ℚ)
    (proof : HashProof) : Option Pos33SortMsg :=
  let data := sortData vrfHash index num
  let hash := hash2 C (asciiBytes data)
  if thresholdLose (hashToBig hash) diff then none
  else some { sortHash := some { hash := hash, index := index, num := wrap32 num },
              proof := some proof }

/-- The result `doSort` (sortition.go lines 81-99) produces when the
worker pool happens to finish the jobs in dispatch order: the winning
draws among `sortF` applied to every index in `[0, count)`. -/
def doSort (C : Crypto) (vrfHash : List Byte) (count : Nat) (num : Int) (diff : ℚ)
    (proof : HashProof) : List Pos33SortMsg :=
  (List.range count).filterMap (fun i : Nat => sortF C vrfHash (i : Int) num diff proof)

/-- The possible return values of the concurrent `doSort` (sortition.go
lines 81-99): a feeder goroutine enqueues the arguments `0, …, count-1`
on the shared worker channel, each argument is taken by exactly one of
the eight workers and evaluated with the pure `sortF`, results come back
on `ch` in whatever order the workers finish, and the collector takes
exactly `count` results and keeps the non-nil ones.  A possible output
is therefore exactly: the non-nil `sortF` values of some permutation of
`0, …, count-1`, in that permutation's order. -/
def IsDoSortRun (C : Crypto) (vrfHash : List Byte) (count : Nat) (num : Int)
    (diff : ℚ) (proof : HashProof) (l : List Pos33SortMsg) : Prop :=
  ∃ p : List Nat, p.Perm (List.range count) ∧
    l = p.filterMap (fun i : Nat => sortF C vrfHash (i : Int) num diff proof)

/-- `committeeSort` (sortition.go lines 101-122).  The ticket count is
queried at `height - 10` (the literal `10` is in the source at line
102); a `nil` private key aborts with `nil` (modelled `none`); `doSort`
is called with `num = 0`.  `int(count)` of a negative ledger answer
makes the `doSort` loops run zero times, which `Int.toNat` reproduces. -/
def committeeSort (C : Crypto) (n : Node) (seed : List Byte) (height round ty : Int) :
    Option (List Pos33SortMsg) :=
  let count := n.queryTicketCount n.myAddr (height - 10)
  match n.getPriv with
  | none => none
  | some priv =>
    let diff := n.getDiff height round
    let input : VrfInput := { seed := seed, height := height,
                              round := wrap32 round, ty := wrap32 ty }
    let vp := C.evaluate priv (C.encode input)
    let proof : HashProof := { input := some input, vrfHash := vp.1,
                               vrfProof := vp.2, pubkey := C.pubkeyOf priv }
    some (doSort C vp.1 count.toNat 0 diff proof)

/-- `vrfVerify` (sortition.go lines 124-141): public-key parse failure,
proof-to-hash failure and hash inequality all return the single
sentinel `pt.ErrVrfVerify`. -/
def vrfVerify (C : Crypto) (pub input proof hash : List Byte) : Option VerifyError :=
  if C.parsePubKey pub then
    match C.proofToHash pub input proof with
    | none => some .vrfErr
    | some vh => if vh = hash then none else some .vrfErr
  else some .vrfErr

/-- Modelled from the spec: `pt.Pos33SortBlocks` is declared in the
repository's `plugin/dapp/pos33/types` package, which is not among the
provided sources; the spec states that producer and verifier query the
stake ledger at the same snapshot height `height - lookback`
(§3 "TicketIndex", §4.6, §4.7 step 3), and the producer's source uses
the literal `10` (sortition.go line 102), so the shared lookback is 10. -/
def Pos33SortBlocks : Int := 10

/-- The check sequence of `verifySort` (sortition.go lines 158-203),
i.e. everything after the bootstrap carve-out: structural completeness,
ticket ownership, context match, VRF proof, ticket-hash recomputation,
threshold recheck, in source order with short-circuiting. -/
def verifySortChecks (C : Crypto) (n : Node) (height ty : Int) (seed : List Byte)
    (m : Option Pos33SortMsg) : Option VerifyError :=
  match m with
  | none => some .nilMsg
  | some msg =>
    match msg.proof, msg.sortHash with
    | some p, some sh =>
      match p.input with
      | none => some .nilMsg
      | some inp =>
        let addr := C.pubKeyToAddr p.pubkey
        let count := n.queryTicketCount addr (height - Pos33SortBlocks)
        if count ≤ sh.index then some (.indexErr sh.index count height)
        else if inp.height ≠ height then some (.heightErr inp.height height)
        else if inp.seed ≠ seed then some .seedErr
        else if inp.ty ≠ wrap32 ty then some .tyErr
        else
          let input : VrfInput := { seed := seed, height := height,
                                    round := inp.round, ty := wrap32 ty }
          match vrfVerify C p.pubkey (C.encode input) p.vrfProof p.vrfHash with
          | some e => some e
          | none =>
            let data := sortData p.vrfHash sh.index sh.num
            let hash := hash2 C (asciiBytes data)
            if hash ≠ sh.hash then some .hashErr
            else if thresholdLose (hashToBig hash) (n.getDiff height inp.round) then
              some .diffErr
            else none
    | _, _ => some .nilMsg

/-- `verifySort` (sortition.go lines 154-204).  `none` is acceptance
(the Go function returning a `nil` error).  Heights at or below
`Pos33SortBlocks` are accepted unconditionally, before even the `nil`
checks (lines 155-157). -/
def verifySort (C : Crypto) (n : Node) (height ty : Int) (seed : List Byte)
    (m : Option Pos33SortMsg) : Option VerifyError :=
  if height ≤ Pos33SortBlocks then none
  else verifySortChecks C n height ty seed m

/-- The ticket-hash construction in the spec's words (§4.3): format the
VRF hash as lowercase hexadecimal text, join it with the decimal texts
of `index` and `num` using the delimiter `+`, and apply SHA-256 twice in
sequence to the UTF-8 bytes of the resulting string. -/
def specTicketHash (C : Crypto) (vrfHash : List Byte) (index num : Int) : List Byte :=
  C.sha256 (C.sha256 (asciiBytes
    (hexOfBytes vrfHash ++ "+" ++ toString index ++ "+" ++ toString num)))

/-! ### Concrete instantiations used by the witness theorems -/

def cCrypto : Crypto where
  sha256 := fun _ => [(1 : Byte)]
  evaluate := fun _ _ => ([(2 : Byte)], [(3 : Byte)])
  parsePubKey := fun _ => true
  proofToHash := fun _ _ pr => if pr = [(3 : Byte)] then some [(2 : Byte)] else none
  pubkeyOf := fun _ => [(7 : Byte)]
  encode := fun _ => [(9 : Byte)]
  pubKeyToAddr := fun _ => "A"

def cNode : Node where
  myAddr := "A"
  getPriv := some [(4 : Byte)]
  queryTicketCount := fun _ _ => 3
  getDiff := fun _ _ => 1

def cNodeNoKey : Node :=
  { myAddr := "A", getPriv := none, queryTicketCount := fun _ _ => 5,
    getDiff := fun _ _ => 1 }

def cInput : VrfInput :=
  { seed := [(5 : Byte)], height := 100, round := 0, ty := 0 }

def cProof : HashProof :=
  { input := some cInput, vrfHash := [(2 : Byte)], vrfProof := [(3 : Byte)],
    pubkey := [(7 : Byte)] }

def cMsg (i : Int) : Pos33SortMsg :=
  { sortHash := some { hash := [(1 : Byte)], index := i, num := 0 },
    proof := some cProof }

def cMsgs : List Pos33SortMsg := [cMsg 0, cMsg 1, cMsg 2]

/-- `cMsg 0` with its `proof.input.height` field (and nothing else)
changed from 100 to 55: tamper mutation (b) applied to `cMsg 0`. -/
def cMsgHeightMut : Pos33SortMsg :=
  { sortHash := some { hash := [(1 : Byte)], index := 0, num := 0 },
    proof := some { input := some { seed := [(5 : Byte)], height := 55, round := 0, ty := 0 },
                    vrfHash := [(2 : Byte)], vrfProof := [(3 : Byte)],
                    pubkey := [(7 : Byte)] } }

/-- A message whose `sortHash.num` is 7 (not the producer's 0) and whose
`sortHash.hash` is the ticket hash recomputed over that `num`. -/
def cMsgNum7 : Pos33SortMsg :=
  { sortHash := some { hash := hash2 cCrypto (asciiBytes (sortData [(2 : Byte)] 0 7)),
                       index := 0, num := 7 },
    proof := some cProof }

/-- A message whose `sortHash.hash` is not the recomputed ticket hash. -/
def cMsgBadHash : Pos33SortMsg :=
  { sortHash := some { hash := [(9 : Byte)], index := 0, num := 0 },
    proof := some cProof }

def c2Hash : List Byte := List.replicate 31 (0 : Byte) ++ [(1 : Byte)]

def c2Diff : ℚ := 1 / 512

/-- The worker-completion order `[2, 0, 1]` of the indices `0, 1, 2`,
and the output `doSort` produces under it. -/
def c9Run : List Pos33SortMsg :=
  [2, 0, 1].filterMap (fun i : Nat => sortF cCrypto [(2 : Byte)] (i : Int) 0 1 cProof)

/-- `cMsg 0` with its `proof.vrfProof` field (and nothing else) changed
from `[3]` to `[9]`: tamper mutation (c) applied to `cMsg 0`. -/
def cMsgBadProof : Pos33SortMsg :=
  { sortHash := some { hash := [(1 : Byte)], index := 0, num := 0 },
    proof := some { input := some cInput, vrfHash := [(2 : Byte)],
                    vrfProof := [(9 : Byte)], pubkey := [(7 : Byte)] } }

/-- `cNode` with its difficulty oracle lowered to 0: tamper mutation (d). -/
def cNodeDiff0 : Node :=
  { myAddr := "A", getPriv := some [(4 : Byte)],
    queryTicketCount := fun _ _ => 3, getDiff := fun _ _ => 0 }

/-! ### Arithmetic lemmas for the `big.Float` model -/

theorem log2Fuel_spec (f : Nat) : ∀ n, 1 ≤ n → n ≤ f →
    2 ^ log2Fuel f n ≤ n ∧ n < 2 ^ (log2Fuel f n + 1) := by
  induction f with
  | zero => intro n h1 h2; omega
  | succ f ih =>
    intro n h1 h2
    rw [log2Fuel]
    by_cases hn : n ≤ 1
    · rw [if_pos hn]
      have : n = 1 := le_antisymm hn h1
      subst this
      norm_num
    · rw [if_neg hn]
      push_neg at hn
      obtain ⟨ha, hb⟩ := ih (n / 2) (by omega) (by omega)
      rw [pow_succ, pow_succ] at *
      omega

theorem clog2Fuel_one (f : Nat) : clog2Fuel f 1 = 0 := by
  cases f <;> simp [clog2Fuel]

theorem clog2Fuel_spec (f : Nat) : ∀ n, 2 ≤ n → n ≤ f →
    1 ≤ clog2Fuel f n ∧ 2 ^ (clog2Fuel f n - 1) < n ∧ n ≤ 2 ^ clog2Fuel f n := by
  induction f with
  | zero => intro n h1 h2; omega
  | succ f ih =>
    intro n h1 h2
    rw [clog2Fuel]
    rw [if_neg (by omega)]
    by_cases hm : (n + 1) / 2 ≤ 1
    · have hn2 : n = 2 := by omega
      subst hn2
      norm_num [clog2Fuel_one]
    · push_neg at hm
      obtain ⟨hk, ha, hb⟩ := ih ((n + 1) / 2) (by omega) (by omega)
      refine ⟨by omega, ?_, ?_⟩
      · have : clog2Fuel f ((n + 1) / 2) + 1 - 1 = (clog2Fuel f ((n + 1) / 2) - 1) + 1 := by omega
        rw [this, pow_succ]
        omega
      · rw [pow_succ]
        omega

theorem bitlen_spec (n : Nat) (h : 1 ≤ n) :
    1 ≤ bitlen n ∧ 2 ^ (bitlen n - 1) ≤ n ∧ n < 2 ^ bitlen n := by
  rw [bitlen, if_neg (by omega)]
  obtain ⟨ha, hb⟩ := log2Fuel_spec n n h le_rfl
  exact ⟨by omega, by simpa using ha, hb⟩

theorem ilog2_bracket (q : ℚ) (hq : 0 < q) :
    (2 : ℚ) ^ ilog2 q ≤ q ∧ q < (2 : ℚ) ^ (ilog2 q + 1) := by
  rw [ilog2]
  by_cases h1 : 1 ≤ q
  · rw [if_pos h1]
    have hfl : 1 ≤ ⌊q⌋ := Int.le_floor.mpr (by exact_mod_cast h1)
    have hn1 : 1 ≤ ⌊q⌋.toNat := by omega
    obtain ⟨ha, hb⟩ := log2Fuel_spec ⌊q⌋.toNat ⌊q⌋.toNat hn1 le_rfl
    have hcast : ((⌊q⌋.toNat : ℤ) : ℚ) = (⌊q⌋ : ℚ) := by
      rw [Int.toNat_of_nonneg (by omega)]
    constructor
    · rw [zpow_natCast]
      calc (2 : ℚ) ^ log2Fuel ⌊q⌋.toNat ⌊q⌋.toNat
          ≤ ((⌊q⌋.toNat : ℤ) : ℚ) := by exact_mod_cast ha
        _ = (⌊q⌋ : ℚ) := hcast
        _ ≤ q := Int.floor_le q
    · have h2 : (2 : ℚ) ^ ((log2Fuel ⌊q⌋.toNat ⌊q⌋.toNat : ℤ) + 1) =
          (2 : ℚ) ^ (log2Fuel ⌊q⌋.toNat ⌊q⌋.toNat + 1) := by
        rw [← zpow_natCast]
        push_cast
        ring_nf
      rw [h2]
      have hb' : ((⌊q⌋.toNat : ℚ)) + 1 ≤ (2 : ℚ) ^ (log2Fuel ⌊q⌋.toNat ⌊q⌋.toNat + 1) := by
        exact_mod_cast hb
      calc q < (⌊q⌋ : ℚ) + 1 := Int.lt_floor_add_one q
        _ = ((⌊q⌋.toNat : ℚ)) + 1 := by
            rw [show ((⌊q⌋.toNat : ℚ)) = ((⌊q⌋.toNat : ℤ) : ℚ) by push_cast; ring, hcast]
        _ ≤ _ := hb'
  · rw [if_neg h1]
    push_neg at h1
    have hqi : 1 < q⁻¹ := (one_lt_inv₀ hq).mpr h1
    have hce : (1 : ℤ) < ⌈q⁻¹⌉ := Int.lt_ceil.mpr (by exact_mod_cast hqi)
    have hc2 : 2 ≤ ⌈q⁻¹⌉.toNat := by omega
    obtain ⟨hk1, ha, hb⟩ := clog2Fuel_spec ⌈q⁻¹⌉.toNat ⌈q⁻¹⌉.toNat hc2 le_rfl
    have hccast : ((⌈q⁻¹⌉.toNat : ℚ)) = ((⌈q⁻¹⌉ : ℤ) : ℚ) := by
      rw [show ((⌈q⁻¹⌉.toNat : ℚ)) = ((⌈q⁻¹⌉.toNat : ℤ) : ℚ) by push_cast; ring,
        Int.toNat_of_nonneg (by omega)]
    have hqinv_pos : 0 < q⁻¹ := inv_pos.mpr hq
    constructor
    · rw [zpow_neg, zpow_natCast]
      have hqc : q⁻¹ ≤ (2 : ℚ) ^ clog2Fuel ⌈q⁻¹⌉.toNat ⌈q⁻¹⌉.toNat := by
        calc q⁻¹ ≤ ((⌈q⁻¹⌉ : ℤ) : ℚ) := Int.le_ceil q⁻¹
          _ = ((⌈q⁻¹⌉.toNat : ℚ)) := hccast.symm
          _ ≤ (2 : ℚ) ^ clog2Fuel ⌈q⁻¹⌉.toNat ⌈q⁻¹⌉.toNat := by exact_mod_cast hb
      calc ((2 : ℚ) ^ clog2Fuel ⌈q⁻¹⌉.toNat ⌈q⁻¹⌉.toNat)⁻¹
          ≤ (q⁻¹)⁻¹ := inv_anti₀ hqinv_pos hqc
        _ = q := inv_inv q
    · have hlt : (2 : ℚ) ^ (clog2Fuel ⌈q⁻¹⌉.toNat ⌈q⁻¹⌉.toNat - 1) < q⁻¹ := by
        have h3 : (2 : ℚ) ^ (clog2Fuel ⌈q⁻¹⌉.toNat ⌈q⁻¹⌉.toNat - 1) ≤
            ((⌈q⁻¹⌉.toNat : ℚ)) - 1 := by
          have : (2 : ℕ) ^ (clog2Fuel ⌈q⁻¹⌉.toNat ⌈q⁻¹⌉.toNat - 1) + 1 ≤ ⌈q⁻¹⌉.toNat := ha
          have h4 : ((2 : ℕ) ^ (clog2Fuel ⌈q⁻¹⌉.toNat ⌈q⁻¹⌉.toNat - 1) + 1 : ℚ) ≤
              ((⌈q⁻¹⌉.toNat : ℚ)) := by exact_mod_cast this
          push_cast at h4 ⊢
          linarith
        have h5 : ((⌈q⁻¹⌉.toNat : ℚ)) - 1 < q⁻¹ := by
          rw [hccast]
          have := Int.ceil_lt_add_one q⁻¹
          linarith
        linarith
      have hinv : q < ((2 : ℚ) ^ (clog2Fuel ⌈q⁻¹⌉.toNat ⌈q⁻¹⌉.toNat - 1))⁻¹ := by
        calc q = (q⁻¹)⁻¹ := (inv_inv q).symm
          _ < ((2 : ℚ) ^ (clog2Fuel ⌈q⁻¹⌉.toNat ⌈q⁻¹⌉.toNat - 1))⁻¹ :=
            inv_strictAnti₀ (by positivity) hlt
      have hexp : (-(clog2Fuel ⌈q⁻¹⌉.toNat ⌈q⁻¹⌉.toNat : ℤ) + 1) =
          -((clog2Fuel ⌈q⁻¹⌉.toNat ⌈q⁻¹⌉.toNat - 1 : ℕ) : ℤ) := by omega
      rw [hexp, zpow_neg, zpow_natCast]
      exact hinv

theorem ilog2_unique (q : ℚ) (hq : 0 < q) (e : ℤ)
    (h1 : (2 : ℚ) ^ e ≤ q) (h2 : q < (2 : ℚ) ^ (e + 1)) : ilog2 q = e := by
  obtain ⟨b1, b2⟩ := ilog2_bracket q hq
  by_contra hne
  rcases lt_or_gt_of_ne hne with hlt | hgt
  · have : (2 : ℚ) ^ (ilog2 q + 1) ≤ (2 : ℚ) ^ e :=
      zpow_le_zpow_right₀ one_le_two (by omega)
    linarith
  · have : (2 : ℚ) ^ (e + 1) ≤ (2 : ℚ) ^ ilog2 q :=
      zpow_le_zpow_right₀ one_le_two (by omega)
    linarith

theorem ilog2_nat_div_pow (y c : Nat) (hy : 1 ≤ y) :
    ilog2 ((y : ℚ) / ((2 ^ c : Nat) : ℚ)) = (bitlen y : ℤ) - 1 - c := by
  obtain ⟨hb1, hb2, hb3⟩ := bitlen_spec y hy
  have hy0 : (0 : ℚ) < (y : ℚ) := by exact_mod_cast hy
  have hpow : (0 : ℚ) < ((2 ^ c : Nat) : ℚ) := by positivity
  have hcast2c : ((2 ^ c : Nat) : ℚ) = (2 : ℚ) ^ (c : ℤ) := by
    rw [zpow_natCast]; push_cast; ring
  have key1 : (2 : ℚ) ^ ((bitlen y : ℤ) - 1) ≤ (y : ℚ) := by
    have h2 : ((2 ^ (bitlen y - 1) : Nat) : ℚ) ≤ (y : ℚ) := by exact_mod_cast hb2
    rw [show ((bitlen y : ℤ) - 1) = ((bitlen y - 1 : Nat) : ℤ) by omega, zpow_natCast]
    push_cast at h2
    exact h2
  have key2 : (y : ℚ) < (2 : ℚ) ^ (bitlen y : ℤ) := by
    have h3 : (y : ℚ) < ((2 ^ bitlen y : Nat) : ℚ) := by exact_mod_cast hb3
    rw [zpow_natCast]
    push_cast at h3
    exact h3
  apply ilog2_unique _ (div_pos hy0 hpow)
  · rw [le_div_iff₀ hpow, hcast2c, ← zpow_add₀ (two_ne_zero (α := ℚ))]
    rw [show (bitlen y : ℤ) - 1 - c + c = (bitlen y : ℤ) - 1 by ring]
    exact key1
  · rw [div_lt_iff₀ hpow, hcast2c, ← zpow_add₀ (two_ne_zero (α := ℚ))]
    rw [show (bitlen y : ℤ) - 1 - c + 1 + c = (bitlen y : ℤ) by ring]
    exact key2

theorem rneNat_mul_cancel (N d : Nat) (hd : 0 < d) : rneNat (d * N) d = N := by
  rw [rneNat, Nat.mul_mod_right, Nat.mul_div_cancel_left _ hd]
  simp [hd]

theorem floatRound_div_pow_eq (p y c : Nat) (hp : bitlen y ≤ p) :
    floatRound p ((y : ℚ) / ((2 ^ c : Nat) : ℚ)) = (y : ℚ) / ((2 ^ c : Nat) : ℚ) := by
  by_cases hy : y = 0
  · subst hy
    norm_num [floatRound]
  · have hy1 : 1 ≤ y := by omega
    have hy0 : (0 : ℚ) < (y : ℚ) := by exact_mod_cast hy1
    have hpow : (0 : ℚ) < ((2 ^ c : Nat) : ℚ) := by positivity
    set q : ℚ := (y : ℚ) / ((2 ^ c : Nat) : ℚ) with hqdef
    have hqpos : 0 < q := div_pos hy0 hpow
    have habs : |q| = q := abs_of_pos hqpos
    have hqne : q ≠ 0 := ne_of_gt hqpos
    have hqnneg : ¬ q < 0 := not_lt.mpr hqpos.le
    obtain ⟨hb1, hb2, hb3⟩ := bitlen_spec y hy1
    have hil : ilog2 |q| = (bitlen y : ℤ) - 1 - c := by
      rw [habs, hqdef]
      exact ilog2_nat_div_pow y c hy1
    rw [floatRound, if_neg hqne, if_neg hqnneg, hil]
    have hk1 : ((bitlen y : ℤ) - 1 - c + 1 - p).toNat = 0 := by omega
    have hk2 : (-((bitlen y : ℤ) - 1 - c + 1 - p)).toNat = p - bitlen y + c := by omega
    rw [hk1, hk2]
    have hden_pos : 0 < q.den := q.pos
    have hnum_pos : 0 < q.num := Rat.num_pos.mpr hqpos
    have hdenne : ((q.den : ℚ)) ≠ 0 := by exact_mod_cast hden_pos.ne.symm
    have hnumden : (q.num : ℚ) = q * (q.den : ℚ) := by
      have h := Rat.num_div_den q
      exact (div_eq_iff hdenne).mp h
    have hqmul : q * ((2 ^ c : Nat) : ℚ) = (y : ℚ) := by
      rw [hqdef, div_mul_cancel₀ _ (ne_of_gt hpow)]
    have hcross : q.num * ((2 : ℤ) ^ c) = (y : ℤ) * q.den := by
      have h3 : (q.num : ℚ) * ((2 ^ c : Nat) : ℚ) = (y : ℚ) * (q.den : ℚ) := by
        rw [hnumden]
        calc q * (q.den : ℚ) * ((2 ^ c : Nat) : ℚ)
            = q * ((2 ^ c : Nat) : ℚ) * (q.den : ℚ) := by ring
          _ = (y : ℚ) * (q.den : ℚ) := by rw [hqmul]
      exact_mod_cast h3
    have hnatAbs : (q.num.natAbs : ℤ) = q.num := Int.natAbs_of_nonneg hnum_pos.le
    have ha : q.num.natAbs * 2 ^ (p - bitlen y + c) = q.den * (y * 2 ^ (p - bitlen y)) := by
      have hz : (q.num.natAbs : ℤ) * 2 ^ (p - bitlen y + c) =
          (q.den : ℤ) * ((y : ℤ) * 2 ^ (p - bitlen y)) := by
        rw [hnatAbs]
        rw [show (2 : ℤ) ^ (p - bitlen y + c) = 2 ^ c * 2 ^ (p - bitlen y) by
          rw [← pow_add]; congr 1; omega]
        calc q.num * (2 ^ c * 2 ^ (p - bitlen y))
            = q.num * 2 ^ c * 2 ^ (p - bitlen y) := by ring
          _ = (y : ℤ) * q.den * 2 ^ (p - bitlen y) := by rw [hcross]
          _ = (q.den : ℤ) * ((y : ℤ) * 2 ^ (p - bitlen y)) := by ring
      exact_mod_cast hz
    rw [pow_zero, Nat.mul_one, ha, rneNat_mul_cancel _ _ hden_pos]
    rw [hqdef, one_mul, Nat.cast_one, mul_one]
    rw [div_eq_div_iff (by positivity) (ne_of_gt hpow)]
    push_cast
    rw [pow_add]
    ring

theorem thresholdLose_eq_false_iff (y : Nat) (diff : ℚ) :
    thresholdLose y diff = false ↔ (y : ℚ) / 2 ^ 256 ≤ diff := by
  rw [thresholdLose, decide_eq_false_iff_not, not_lt]
  have hf : fmax = ((2 ^ 256 : Nat) : ℚ) := rfl
  rw [hf, floatRound_div_pow_eq (quoPrec y) y 256 (le_max_left _ _)]
  have hc : ((2 ^ 256 : Nat) : ℚ) = (2 : ℚ) ^ 256 := by push_cast; ring
  rw [hc]

/-! ### Structural lemmas about the embedded program -/

theorem vrfVerify_cases (C : Crypto) (pub input proof hash : List Byte) :
    vrfVerify C pub input proof hash = none ∨
      vrfVerify C pub input proof hash = some .vrfErr := by
  rw [vrfVerify]
  by_cases hp : C.parsePubKey pub
  · rw [if_pos hp]
    cases C.proofToHash pub input proof with
    | none => right; rfl
    | some vh =>
      by_cases hv : vh = hash
      · left; simp [hv]
      · right; simp [hv]
  · rw [if_neg hp]
    right; rfl

theorem sortF_eq_some (C : Crypto) (vrfHash : List Byte) (index num : Int) (diff : ℚ)
    (proof : HashProof) (m : Pos33SortMsg)
    (h : sortF C vrfHash index num diff proof = some m) :
    thresholdLose (hashToBig (hash2 C (asciiBytes (sortData vrfHash index num)))) diff = false ∧
      m = { sortHash := some { hash := hash2 C (asciiBytes (sortData vrfHash index num)),
                               index := index, num := wrap32 num },
            proof := some proof } := by
  rw [sortF] at h
  by_cases ht : thresholdLose (hashToBig (hash2 C (asciiBytes (sortData vrfHash index num)))) diff
  · rw [if_pos ht] at h
    exact absurd h (by simp)
  · rw [if_neg ht] at h
    exact ⟨by simpa using ht, (Option.some_injective _ h).symm⟩

theorem doSort_mem (C : Crypto) (vrfHash : List Byte) (count : Nat) (num : Int) (diff : ℚ)
    (proof : HashProof) (m : Pos33SortMsg)
    (hm : m ∈ doSort C vrfHash count num diff proof) :
    ∃ i : Nat, i < count ∧ sortF C vrfHash (i : Int) num diff proof = some m := by
  rw [doSort] at hm
  rw [List.mem_filterMap] at hm
  obtain ⟨i, hi, hsf⟩ := hm
  exact ⟨i, List.mem_range.mp hi, hsf⟩

theorem committeeSort_eq_some (C : Crypto) (n : Node) (seed : List Byte)
    (height round ty : Int) (priv : List Byte) (msgs : List Pos33SortMsg)
    (hpriv : n.getPriv = some priv)
    (hrun : committeeSort C n seed height round ty = some msgs) :
    msgs = doSort C
      (C.evaluate priv (C.encode { seed := seed, height := height,
                                   round := wrap32 round, ty := wrap32 ty })).1
      (n.queryTicketCount n.myAddr (height - 10)).toNat 0 (n.getDiff height round)
      { input := some { seed := seed, height := height,
                        round := wrap32 round, ty := wrap32 ty },
        vrfHash := (C.evaluate priv (C.encode { seed := seed, height := height,
                                                round := wrap32 round, ty := wrap32 ty })).1,
        vrfProof := (C.evaluate priv (C.encode { seed := seed, height := height,
                                                 round := wrap32 round, ty := wrap32 ty })).2,
        pubkey := C.pubkeyOf priv } := by
  rw [committeeSort, hpriv] at hrun
  exact (Option.some_injective _ hrun).symm

theorem verifySortChecks_accept (C : Crypto) (n : Node) (height ty : Int) (seed : List Byte)
    (msg : Pos33SortMsg) (p : HashProof) (sh : SortHash) (inp : VrfInput)
    (hp : msg.proof = some p) (hs : msg.sortHash = some sh) (hi : p.input = some inp)
    (hacc : verifySortChecks C n height ty seed (some msg) = none) :
    sh.index < n.queryTicketCount (C.pubKeyToAddr p.pubkey) (height - Pos33SortBlocks) ∧
      inp.height = height ∧ inp.seed = seed ∧ inp.ty = wrap32 ty ∧
      vrfVerify C p.pubkey
        (C.encode { seed := seed, height := height, round := inp.round, ty := wrap32 ty })
        p.vrfProof p.vrfHash = none ∧
      hash2 C (asciiBytes (sortData p.vrfHash sh.index sh.num)) = sh.hash ∧
      thresholdLose (hashToBig (hash2 C (asciiBytes (sortData p.vrfHash sh.index sh.num))))
        (n.getDiff height inp.round) = false := by
  rw [verifySortChecks] at hacc
  simp only [hp, hs, hi] at hacc
  by_cases h1 : n.queryTicketCount (C.pubKeyToAddr p.pubkey) (height - Pos33SortBlocks) ≤ sh.index
  · rw [if_pos h1] at hacc; exact absurd hacc (by simp)
  · rw [if_neg h1] at hacc
    push_neg at h1
    by_cases h2 : inp.height ≠ height
    · rw [if_pos h2] at hacc; exact absurd hacc (by simp)
    · rw [if_neg h2] at hacc
      push_neg at h2
      by_cases h3 : inp.seed ≠ seed
      · rw [if_pos h3] at hacc; exact absurd hacc (by simp)
      · rw [if_neg h3] at hacc
        push_neg at h3
        by_cases h4 : inp.ty ≠ wrap32 ty
        · rw [if_pos h4] at hacc; exact absurd hacc (by simp)
        · rw [if_neg h4] at hacc
          push_neg at h4
          rcases vrfVerify_cases C p.pubkey
              (C.encode { seed := seed, height := height, round := inp.round, ty := wrap32 ty })
              p.vrfProof p.vrfHash with hv | hv
          · rw [hv] at hacc
            by_cases h5 : hash2 C (asciiBytes (sortData p.vrfHash sh.index sh.num)) ≠ sh.hash
            · rw [if_pos h5] at hacc; exact absurd hacc (by simp)
            · rw [if_neg h5] at hacc
              push_neg at h5
              by_cases h6 : thresholdLose
                  (hashToBig (hash2 C (asciiBytes (sortData p.vrfHash sh.index sh.num))))
                  (n.getDiff height inp.round)
              · rw [if_pos h6] at hacc; exact absurd hacc (by simp)
              · exact ⟨h1, h2, h3, h4, hv, h5, by simpa using h6⟩
          · rw [hv] at hacc
            exact absurd hacc (by simp)

theorem verifySortChecks_accept_of (C : Crypto) (n : Node) (height ty : Int)
    (seed : List Byte) (msg : Pos33SortMsg) (p : HashProof) (sh : SortHash) (inp : VrfInput)
    (hp : msg.proof = some p) (hs : msg.sortHash = some sh) (hi : p.input = some inp)
    (h1 : sh.index < n.queryTicketCount (C.pubKeyToAddr p.pubkey) (height - Pos33SortBlocks))
    (h2 : inp.height = height) (h3 : inp.seed = seed) (h4 : inp.ty = wrap32 ty)
    (h5 : vrfVerify C p.pubkey
        (C.encode { seed := seed, height := height, round := inp.round, ty := wrap32 ty })
        p.vrfProof p.vrfHash = none)
    (h6 : hash2 C (asciiBytes (sortData p.vrfHash sh.index sh.num)) = sh.hash)
    (h7 : thresholdLose (hashToBig sh.hash) (n.getDiff height inp.round) = false) :
    verifySortChecks C n height ty seed (some msg) = none := by
  rw [verifySortChecks]
  simp only [hp, hs, hi, not_le.mpr h1, h2, h3, h4, h5, h6, h7]
  simp

/-! ### The claims -/

/-- C1: Round-trip.  Every `SortMsg` in the list returned by
`committeeSort seed height round ty` is accepted (`none`, i.e. a `nil`
error) by `verifySort height ty seed` run over the same externals,
provided the ticket ledger reports at least `SortHash.Index + 1` tickets
for the producer's address at the verifier's snapshot height
`height - Pos33SortBlocks`, and the difficulty oracle returns the same
diff to the producer (queried at the `int` round) and the verifier
(queried at the `int32` round stored in the message).  The `hvrf`
hypothesis is the spec's VRF collaborator contract (§8: a proof produced
by `Evaluate` with the matching private key verifies); the VRF is
external to this repository, so the contract enters as a hypothesis. -/
theorem c1_committee_verify_roundtrip
    (C : Crypto) (n : Node) (seed : List Byte) (height round ty : Int)
    (priv : List Byte) (msgs : List Pos33SortMsg) (m : Pos33SortMsg)
    (hpriv : n.getPriv = some priv)
    (hrun : committeeSort C n seed height round ty = some msgs)
    (hm : m ∈ msgs)
    (hcount : ∀ sh, m.sortHash = some sh →
      sh.index < n.queryTicketCount (C.pubKeyToAddr (C.pubkeyOf priv))
        (height - Pos33SortBlocks))
    (hvrf : vrfVerify C (C.pubkeyOf priv)
        (C.encode { seed := seed, height := height, round := wrap32 round, ty := wrap32 ty })
        (C.evaluate priv (C.encode { seed := seed, height := height,
                                     round := wrap32 round, ty := wrap32 ty })).2
        (C.evaluate priv (C.encode { seed := seed, height := height,
                                     round := wrap32 round, ty := wrap32 ty })).1 = none)
    (hdiff : n.getDiff height (wrap32 round) = n.getDiff height round) :
    verifySort C n height ty seed (some m) = none := by
  by_cases hboot : height ≤ Pos33SortBlocks
  · rw [verifySort, if_pos hboot]
  · rw [verifySort, if_neg hboot]
    have hmsgs := committeeSort_eq_some C n seed height round ty priv msgs hpriv hrun
    subst hmsgs
    obtain ⟨i, hi, hsf⟩ := doSort_mem _ _ _ _ _ _ _ hm
    obtain ⟨hth, hmeq⟩ := sortF_eq_some _ _ _ _ _ _ _ hsf
    subst hmeq
    apply verifySortChecks_accept_of C n height ty seed _ _ _ _ rfl rfl rfl
    · exact hcount _ rfl
    · rfl
    · rfl
    · rfl
    · exact hvrf
    · show hash2 C (asciiBytes (sortData _ (i : Int) (wrap32 0))) = _
      rw [show wrap32 0 = 0 from by decide]
    · show thresholdLose _ (n.getDiff height (wrap32 round)) = false
      rw [hdiff]
      exact hth

/-- Witness for C1: a concrete run.  `committeeSort` over the concrete
externals produces `cMsgs`; its first message round-trips through
`verifySort` to acceptance via `c1_committee_verify_roundtrip`. -/
theorem c1_roundtrip_witness :
    committeeSort cCrypto cNode [(5 : Byte)] 100 0 0 = some cMsgs ∧
      cMsg 0 ∈ cMsgs ∧
      verifySort cCrypto cNode 100 0 [(5 : Byte)] (some (cMsg 0)) = none := by
  refine ⟨by with_unfolding_all decide, by with_unfolding_all decide, ?_⟩
  apply c1_committee_verify_roundtrip cCrypto cNode [(5 : Byte)] 100 0 0 [(4 : Byte)]
    cMsgs (cMsg 0) rfl (by with_unfolding_all decide) (by with_unfolding_all decide)
    ?_ (by with_unfolding_all decide) rfl
  intro sh h
  injection h with h2
  cases h2
  with_unfolding_all decide

/-- C2 (as stated, refuted; see `c2_threshold_exact` for the corrected
form): the claim reads the hash as a big-endian integer, but
`difficulty.HashToBig` reverses the bytes first.  For the 32-byte hash
`00…0001` and `diff = 1/512`: big-endian `y = 1` gives the exact ratio
`1/2^256 ≤ 1/512`, yet the code computes `y = 2^248`, ratio `1/256`,
which exceeds `1/512`, so the threshold test fails. -/
theorem c2_counterexample :
    ¬ ((thresholdLose (hashToBig c2Hash) c2Diff = false) ↔
      ((specBigEndianVal c2Hash : ℚ) / 2 ^ 256 ≤ c2Diff)) := by
  intro h
  have hB : ((specBigEndianVal c2Hash : ℚ) / 2 ^ 256 ≤ c2Diff) := by
    rw [show specBigEndianVal c2Hash = 1 from by with_unfolding_all decide]
    rw [c2Diff]
    norm_num
  have hA : thresholdLose (hashToBig c2Hash) c2Diff = true := by
    with_unfolding_all decide
  rw [h.mpr hB] at hA
  exact absurd hA (by decide)

/-- C2 (amended): the byte string fed to the comparison is read
**little-endian** (`hashToBig` = reverse, then big-endian); with that
value `y`, the `big.Float` computation
`Quo(SetInt(y), fmax).Cmp(NewFloat(diff)) > 0` of `sortF` and
`verifySort` (`thresholdLose`) decides *exactly* the arbitrary-precision
predicate: the test succeeds iff `y / 2^256 ≤ diff` as exact rationals
-- the `Quo` rounding at precision `max(y.BitLen(), 64)` is exact
because the mantissa `y` always fits in `y.BitLen() ≤ max(y.BitLen(),
64)` bits. -/
theorem c2_threshold_exact (h : List Byte) (diff : ℚ) :
    thresholdLose (hashToBig h) diff = false ↔
      ((hashToBig h : ℚ) / 2 ^ 256 ≤ diff) :=
  thresholdLose_eq_false_iff (hashToBig h) diff

/-- Witness for C2 (amended): both directions at concrete inputs - the
all-zero one-byte hash wins against `diff = 1`, and the `00…0001` hash
(read little-endian as `2^248`) loses against `diff = 1/512`. -/
theorem c2_threshold_exact_witness :
    ((hashToBig [(0 : Byte)] : ℚ) / 2 ^ 256 ≤ 1) ∧
      ¬ ((hashToBig c2Hash : ℚ) / 2 ^ 256 ≤ c2Diff) := by
  constructor
  · exact (c2_threshold_exact [(0 : Byte)] 1).mp (by with_unfolding_all decide)
  · intro hc
    have := (c2_threshold_exact c2Hash c2Diff).mpr hc
    exact absurd this (by with_unfolding_all decide)

/-- C3: ticket-hash construction.  (1) Every message `sortF` emits
carries exactly the spec's construction (lowercase hex of the VRF hash,
`+`, decimal index, `+`, decimal num, double SHA-256 over the UTF-8
bytes - `specTicketHash`, written from the spec's words in §4.3).
(2) The verifier recomputes exactly the same value: once the structural,
ownership, context and VRF checks pass, `verifySortChecks` returns
`hashErr` or proceeds according to whether `sh.hash` equals
`specTicketHash` of the message's own `(vrfHash, index, num)`.  Both
sides therefore compute bit-for-bit identical values for identical
arguments.  `Crypto.sha256` is the abstract stand-in for chain33's
`crypto.Sha256` (SHA-256). -/
theorem c3_ticket_hash_construction :
    (∀ (C : Crypto) (vrfHash : List Byte) (index num : Int) (diff : ℚ)
        (proof : HashProof) (m : Pos33SortMsg) (sh : SortHash),
      sortF C vrfHash index num diff proof = some m → m.sortHash = some sh →
        sh.hash = specTicketHash C vrfHash index num) ∧
    (∀ (C : Crypto) (n : Node) (height ty : Int) (seed : List Byte)
        (msg : Pos33SortMsg) (p : HashProof) (sh : SortHash) (inp : VrfInput),
      msg.proof = some p → msg.sortHash = some sh → p.input = some inp →
      sh.index < n.queryTicketCount (C.pubKeyToAddr p.pubkey) (height - Pos33SortBlocks) →
      inp.height = height → inp.seed = seed → inp.ty = wrap32 ty →
      vrfVerify C p.pubkey
        (C.encode { seed := seed, height := height, round := inp.round, ty := wrap32 ty })
        p.vrfProof p.vrfHash = none →
      verifySortChecks C n height ty seed (some msg) =
        (if specTicketHash C p.vrfHash sh.index sh.num = sh.hash then
          (if thresholdLose (hashToBig sh.hash) (n.getDiff height inp.round) then
            some .diffErr
          else none)
        else some .hashErr)) := by
  have hspec : ∀ (C : Crypto) (v : List Byte) (i nu : Int),
      specTicketHash C v i nu = hash2 C (asciiBytes (sortData v i nu)) := by
    intro C v i nu
    rfl
  constructor
  · intro C vrfHash index num diff proof m sh hsf hsh
    obtain ⟨hth, hmeq⟩ := sortF_eq_some _ _ _ _ _ _ _ hsf
    subst hmeq
    injection hsh with h2
    cases h2
    rw [hspec]
  · intro C n height ty seed msg p sh inp hp hs hi h1 h2 h3 h4 h5
    rw [verifySortChecks]
    simp only [hp, hs, hi, not_le.mpr h1, h2, h3, h4, h5]
    rw [hspec]
    by_cases hh : hash2 C (asciiBytes (sortData p.vrfHash sh.index sh.num)) = sh.hash
    · rw [if_pos hh]
      simp only [hh, ne_eq, not_true_eq_false, if_false, ite_not]
    · rw [if_neg hh]
      simp [hh]

/-- Witness for C3: the hash `sortF` emitted in the concrete run equals
`specTicketHash`, and the verifier rejects a message whose stored hash
differs from `specTicketHash` with exactly `hashErr`. -/
theorem c3_witness :
    [(1 : Byte)] = specTicketHash cCrypto [(2 : Byte)] 0 0 ∧
      verifySortChecks cCrypto cNode 100 0 [(5 : Byte)] (some cMsgBadHash) =
        some .hashErr := by
  constructor
  · exact c3_ticket_hash_construction.1 cCrypto [(2 : Byte)] 0 0 1 cProof (cMsg 0)
      { hash := [(1 : Byte)], index := 0, num := 0 }
      (by with_unfolding_all decide) rfl
  · have H := c3_ticket_hash_construction.2 cCrypto cNode 100 0 [(5 : Byte)]
      cMsgBadHash cProof { hash := [(9 : Byte)], index := 0, num := 0 } cInput
      rfl rfl rfl (by with_unfolding_all decide) rfl rfl (by with_unfolding_all decide)
      (by with_unfolding_all decide)
    rw [H]
    with_unfolding_all decide

/-- C4: producer and verifier query the ticket ledger at the same
snapshot height: the producer's literal `height - 10` (sortition.go line
102) equals the verifier's `height - Pos33SortBlocks` (line 163), the
constant being 10 (`Pos33SortBlocks` is modelled from the spec, see its
doc comment). -/
theorem c4_same_snapshot_height :
    Pos33SortBlocks = 10 ∧
      ∀ (n : Node) (addr : String) (height : Int),
        n.queryTicketCount addr (height - 10) =
          n.queryTicketCount addr (height - Pos33SortBlocks) :=
  ⟨rfl, fun _ _ _ => rfl⟩

/-- C5 (as stated, refuted; see `c5_tamper_detection` for the corrected
form): below the bootstrap height every message is accepted, so an
accepted message can be tampered with freely.  At height 1 the concrete
message `cMsg 0` is accepted, and so is `cMsgHeightMut`, which is
`cMsg 0` with only `proof.input.height` changed (tamper mutation (b)) -
no rejection occurs at all. -/
theorem c5_counterexample :
    verifySort cCrypto cNode 1 0 [(5 : Byte)] (some (cMsg 0)) = none ∧
      verifySort cCrypto cNode 1 0 [(5 : Byte)] (some cMsgHeightMut) = none := by
  constructor <;> with_unfolding_all decide

/-- C5 (amended): for heights **above the bootstrap threshold**
`Pos33SortBlocks`, starting from any structurally complete `SortMsg`
accepted by `verifySort`, each single mutation - (a) raising
`sortHash.index` to at least the holder's ledger ticket count,
(b) changing `proof.input.height`, (c) replacing `proof.vrfProof` by any
value the VRF verifier rejects (the VRF contract guarantees any
corruption is rejected), (d) recomputing with an oracle `diff` under
which the ticket's hash fails the threshold - causes `verifySort` to
reject, and the four rejections carry pairwise distinct error kinds
(`indexErr`, `heightErr`, `vrfErr`, `diffErr`). -/
theorem c5_tamper_detection
    (C : Crypto) (n : Node) (height ty : Int) (seed : List Byte)
    (msg : Pos33SortMsg) (p : HashProof) (sh : SortHash) (inp : VrfInput)
    (hh : Pos33SortBlocks < height)
    (hp : msg.proof = some p) (hs : msg.sortHash = some sh) (hi : p.input = some inp)
    (hacc : verifySort C n height ty seed (some msg) = none) :
    (∀ idx : Int,
      n.queryTicketCount (C.pubKeyToAddr p.pubkey) (height - Pos33SortBlocks) ≤ idx →
      verifySort C n height ty seed
        (some { sortHash := some { hash := sh.hash, index := idx, num := sh.num },
                proof := some p }) =
        some (.indexErr idx
          (n.queryTicketCount (C.pubKeyToAddr p.pubkey) (height - Pos33SortBlocks))
          height)) ∧
    (∀ h' : Int, h' ≠ height →
      verifySort C n height ty seed
        (some { sortHash := some sh,
                proof := some { input := some { seed := inp.seed, height := h',
                                                round := inp.round, ty := inp.ty },
                                vrfHash := p.vrfHash, vrfProof := p.vrfProof,
                                pubkey := p.pubkey } }) =
        some (.heightErr h' height)) ∧
    (∀ pr' : List Byte,
      vrfVerify C p.pubkey
        (C.encode { seed := seed, height := height, round := inp.round, ty := wrap32 ty })
        pr' p.vrfHash ≠ none →
      verifySort C n height ty seed
        (some { sortHash := some sh,
                proof := some { input := some inp, vrfHash := p.vrfHash,
                                vrfProof := pr', pubkey := p.pubkey } }) =
        some .vrfErr) ∧
    (∀ g : Int → Int → ℚ,
      thresholdLose (hashToBig sh.hash) (g height inp.round) = true →
      verifySort C { myAddr := n.myAddr, getPriv := n.getPriv,
                     queryTicketCount := n.queryTicketCount, getDiff := g }
        height ty seed (some msg) = some .diffErr) ∧
    (∀ i c h mh h2 : Int,
      VerifyError.indexErr i c h ≠ VerifyError.heightErr mh h2 ∧
      VerifyError.indexErr i c h ≠ VerifyError.vrfErr ∧
      VerifyError.indexErr i c h ≠ VerifyError.diffErr ∧
      VerifyError.heightErr mh h2 ≠ VerifyError.vrfErr ∧
      VerifyError.heightErr mh h2 ≠ VerifyError.diffErr ∧
      VerifyError.vrfErr ≠ VerifyError.diffErr) := by
  rw [verifySort, if_neg (not_le.mpr hh)] at hacc
  obtain ⟨h1, h2, h3, h4, h5, h6, h7⟩ :=
    verifySortChecks_accept C n height ty seed msg p sh inp hp hs hi hacc
  refine ⟨?_, ?_, ?_, ?_, ?_⟩
  · intro idx hidx
    rw [verifySort, if_neg (not_le.mpr hh)]
    simp only [verifySortChecks, hi]
    rw [if_pos hidx]
  · intro h' hne
    rw [verifySort, if_neg (not_le.mpr hh)]
    simp only [verifySortChecks]
    rw [if_neg (not_le.mpr h1), if_pos (by simpa using hne)]
  · intro pr' hcv
    rw [verifySort, if_neg (not_le.mpr hh)]
    simp only [verifySortChecks]
    rw [if_neg (not_le.mpr h1), if_neg (by simp [h2]), if_neg (by simp [h3]),
      if_neg (by simp [h4])]
    rcases vrfVerify_cases C p.pubkey
        (C.encode { seed := seed, height := height, round := inp.round, ty := wrap32 ty })
        pr' p.vrfHash with hv | hv
    · exact absurd hv hcv
    · rw [hv]
  · intro g hg
    rw [verifySort, if_neg (not_le.mpr hh)]
    simp only [verifySortChecks, hp, hs, hi]
    rw [if_neg (not_le.mpr h1), if_neg (by simp [h2]), if_neg (by simp [h3]),
      if_neg (by simp [h4]), h5]
    simp only [h6]
    rw [if_neg (by simp), if_pos hg]
  · intro i c h mh h2'
    refine ⟨fun hx => VerifyError.noConfusion hx, fun hx => VerifyError.noConfusion hx,
      fun hx => VerifyError.noConfusion hx, fun hx => VerifyError.noConfusion hx,
      fun hx => VerifyError.noConfusion hx, fun hx => VerifyError.noConfusion hx⟩

/-- Witness for C5 (amended): the four tamper mutations applied to the
accepted concrete message `cMsg 0` at height 100, each rejected with its
own error kind. -/
theorem c5_tamper_witness :
    verifySort cCrypto cNode 100 0 [(5 : Byte)] (some (cMsg 5)) =
        some (.indexErr 5 3 100) ∧
      verifySort cCrypto cNode 100 0 [(5 : Byte)] (some cMsgHeightMut) =
        some (.heightErr 55 100) ∧
      verifySort cCrypto cNode 100 0 [(5 : Byte)] (some cMsgBadProof) =
        some .vrfErr ∧
      verifySort cCrypto cNodeDiff0 100 0 [(5 : Byte)] (some (cMsg 0)) =
        some .diffErr := by
  have H := c5_tamper_detection cCrypto cNode 100 0 [(5 : Byte)] (cMsg 0) cProof
    { hash := [(1 : Byte)], index := 0, num := 0 } cInput
    (by decide) rfl rfl rfl (by with_unfolding_all decide)
  exact ⟨H.1 5 (by with_unfolding_all decide), H.2.1 55 (by decide),
    H.2.2.1 [(9 : Byte)] (by with_unfolding_all decide),
    H.2.2.2.1 (fun _ _ => 0) (by with_unfolding_all decide)⟩

/-- C6: ownership check.  Above the bootstrap threshold, for every
structurally complete message, if the claimed `sortHash.index` is at
least the ticket count the ledger reports for the address derived from
`proof.pubkey` at the verifier's snapshot height, `verifySort` rejects
(with the index-claim error, before any other check). -/
theorem c6_ownership_check (C : Crypto) (n : Node) (height ty : Int) (seed : List Byte)
    (msg : Pos33SortMsg) (p : HashProof) (sh : SortHash) (inp : VrfInput)
    (hh : Pos33SortBlocks < height)
    (hp : msg.proof = some p) (hs : msg.sortHash = some sh) (hi : p.input = some inp)
    (hcnt : n.queryTicketCount (C.pubKeyToAddr p.pubkey) (height - Pos33SortBlocks) ≤
      sh.index) :
    verifySort C n height ty seed (some msg) =
      some (.indexErr sh.index
        (n.queryTicketCount (C.pubKeyToAddr p.pubkey) (height - Pos33SortBlocks))
        height) := by
  rw [verifySort, if_neg (not_le.mpr hh)]
  simp only [verifySortChecks, hp, hs, hi]
  rw [if_pos hcnt]

/-- Witness for C6: a message claiming ticket index 7 against a ledger
count of 3 at height 100 is rejected with the index-claim error. -/
theorem c6_ownership_witness :
    verifySort cCrypto cNode 100 0 [(5 : Byte)] (some (cMsg 7)) =
      some (.indexErr 7 3 100) :=
  c6_ownership_check cCrypto cNode 100 0 [(5 : Byte)] (cMsg 7) cProof
    { hash := [(1 : Byte)], index := 7, num := 0 } cInput
    (by decide) rfl rfl rfl (by with_unfolding_all decide)

/-- C7: bootstrap carve-out.  At or below the configured height
`Pos33SortBlocks`, `verifySort` accepts every message unconditionally -
including `none` and structurally incomplete ones - performing none of
the checks (the early return precedes even the `nil` test); above it,
`verifySort` is exactly the full check sequence `verifySortChecks`. -/
theorem c7_bootstrap_carveout :
    (∀ (C : Crypto) (n : Node) (height ty : Int) (seed : List Byte)
        (m : Option Pos33SortMsg),
      height ≤ Pos33SortBlocks → verifySort C n height ty seed m = none) ∧
    (∀ (C : Crypto) (n : Node) (height ty : Int) (seed : List Byte)
        (m : Option Pos33SortMsg),
      Pos33SortBlocks < height →
        verifySort C n height ty seed m = verifySortChecks C n height ty seed m) := by
  constructor
  · intro C n height ty seed m hle
    rw [verifySort, if_pos hle]
  · intro C n height ty seed m hlt
    rw [verifySort, if_neg (not_le.mpr hlt)]

/-- Witness for C7: the `nil` message is accepted unconditionally at
height 1, and at height 100 `verifySort` coincides with the full check
sequence. -/
theorem c7_bootstrap_witness :
    verifySort cCrypto cNode 1 0 [] none = none ∧
      verifySort cCrypto cNode 100 0 [] none =
        verifySortChecks cCrypto cNode 100 0 [] none :=
  ⟨c7_bootstrap_carveout.1 cCrypto cNode 1 0 [] none (by decide),
   c7_bootstrap_carveout.2 cCrypto cNode 100 0 [] none (by decide)⟩

/-- C8: `SortHash.Num` is not tied to the committee type.  (1) For *any*
`num` value, a message whose hash was computed over
`(vrfHash, index, num)` passes the hash-equality check: once the
structural, ownership, context and VRF checks pass, the result depends
only on the threshold test - `num` is never compared against 0 or
against `ty`.  (2) The producer always emits `Num = 0`: every message
`committeeSort` returns has `sortHash.num = 0`. -/
theorem c8_num_unconstrained :
    (∀ (C : Crypto) (n : Node) (height ty : Int) (seed : List Byte)
        (msg : Pos33SortMsg) (p : HashProof) (sh : SortHash) (inp : VrfInput),
      Pos33SortBlocks < height →
      msg.proof = some p → msg.sortHash = some sh → p.input = some inp →
      sh.index < n.queryTicketCount (C.pubKeyToAddr p.pubkey) (height - Pos33SortBlocks) →
      inp.height = height → inp.seed = seed → inp.ty = wrap32 ty →
      vrfVerify C p.pubkey
        (C.encode { seed := seed, height := height, round := inp.round, ty := wrap32 ty })
        p.vrfProof p.vrfHash = none →
      sh.hash = hash2 C (asciiBytes (sortData p.vrfHash sh.index sh.num)) →
      verifySort C n height ty seed (some msg) =
        (if thresholdLose (hashToBig sh.hash) (n.getDiff height inp.round) then
          some .diffErr
        else none)) ∧
    (∀ (C : Crypto) (n : Node) (seed : List Byte) (height round ty : Int)
        (msgs : List Pos33SortMsg) (m : Pos33SortMsg) (sh : SortHash),
      committeeSort C n seed height round ty = some msgs → m ∈ msgs →
        m.sortHash = some sh → sh.num = 0) := by
  constructor
  · intro C n height ty seed msg p sh inp hh hp hs hi h1 h2 h3 h4 h5 hhash
    rw [verifySort, if_neg (not_le.mpr hh)]
    simp only [verifySortChecks, hp, hs, hi]
    rw [if_neg (not_le.mpr h1), if_neg (by simp [h2]), if_neg (by simp [h3]),
      if_neg (by simp [h4]), h5]
    rw [if_neg (by simp [hhash.symm])]
    rw [← hhash]
  · intro C n seed height round ty msgs m sh hrun hm hs
    cases hgp : n.getPriv with
    | none =>
      rw [committeeSort, hgp] at hrun
      exact absurd hrun (by simp)
    | some priv =>
      have hmsgs := committeeSort_eq_some C n seed height round ty priv msgs hgp hrun
      subst hmsgs
      obtain ⟨i, hi, hsf⟩ := doSort_mem _ _ _ _ _ _ _ hm
      obtain ⟨hth, hmeq⟩ := sortF_eq_some _ _ _ _ _ _ _ hsf
      subst hmeq
      injection hs with h2
      cases h2
      show wrap32 0 = 0
      decide

/-- Witness for C8: the message `cMsgNum7`, whose `num` is 7 and whose
hash was computed over `num = 7`, is accepted at height 100 (its
threshold passes under `diff = 1`); and the producer's concrete run
emits `num = 0`. -/
theorem c8_num_witness :
    verifySort cCrypto cNode 100 0 [(5 : Byte)] (some cMsgNum7) = none ∧
      ({ hash := [(1 : Byte)], index := 1, num := 0 } : SortHash).num = 0 := by
  constructor
  · have H := c8_num_unconstrained.1 cCrypto cNode 100 0 [(5 : Byte)] cMsgNum7 cProof
      { hash := hash2 cCrypto (asciiBytes (sortData [(2 : Byte)] 0 7)),
        index := 0, num := 7 } cInput
      (by decide) rfl rfl rfl (by with_unfolding_all decide) rfl rfl
      (by with_unfolding_all decide) (by with_unfolding_all decide) rfl
    rw [H]
    with_unfolding_all decide
  · exact c8_num_unconstrained.2 cCrypto cNode [(5 : Byte)] 100 0 0 cMsgs (cMsg 1)
      { hash := [(1 : Byte)], index := 1, num := 0 }
      (by with_unfolding_all decide) (by with_unfolding_all decide) rfl

/-- C9: every possible output of the concurrent `doSort` - any
worker-completion order, i.e. any permutation of the dispatched indices
`0, …, count-1` - is, up to order, exactly the non-nil `sortF` results
over `[0, count)` (each index evaluated exactly once, losing draws
omitted), and `count = 0` yields the empty list, not an error. -/
theorem c9_doSort_complete (C : Crypto) (vrfHash : List Byte) (count : Nat) (num : Int)
    (diff : ℚ) (proof : HashProof) (l : List Pos33SortMsg)
    (hrun : IsDoSortRun C vrfHash count num diff proof l) :
    l.Perm (doSort C vrfHash count num diff proof) ∧ (count = 0 → l = []) := by
  obtain ⟨p, hperm, rfl⟩ := hrun
  constructor
  · rw [doSort]
    exact hperm.filterMap _
  · rintro rfl
    have hp : p = [] := by simpa using hperm
    subst hp
    rfl

/-- Witness for C9: the completion order `[2, 0, 1]` of the three
dispatched indices is a legal run, and its output is a permutation of
the canonical `doSort` output. -/
theorem c9_doSort_witness :
    IsDoSortRun cCrypto [(2 : Byte)] 3 0 1 cProof c9Run ∧
      c9Run.Perm (doSort cCrypto [(2 : Byte)] 3 0 1 cProof) :=
  ⟨⟨[2, 0, 1], by decide, rfl⟩,
   (c9_doSort_complete cCrypto [(2 : Byte)] 3 0 1 cProof c9Run
     ⟨[2, 0, 1], by decide, rfl⟩).1⟩

/-- C10: absence of a key is an absent result, not an error.  If the
private-key provider returns `none`, `committeeSort` returns `none`
(Go `nil`), for every seed, height, round, type and ticket count; the
function has no error channel at all, so no error can be raised. -/
theorem c10_no_key_no_error (C : Crypto) (n : Node) (seed : List Byte)
    (height round ty : Int) (h : n.getPriv = none) :
    committeeSort C n seed height round ty = none := by
  rw [committeeSort, h]

/-- Witness for C10: the keyless node (whose ledger still reports 5
tickets) yields `none`. -/
theorem c10_no_key_witness :
    cNodeNoKey.getPriv = none ∧
      committeeSort cCrypto cNodeNoKey [] 0 0 0 = none :=
  ⟨rfl, c10_no_key_no_error cCrypto cNodeNoKey [] 0 0 0 rfl⟩
